import Mathlib

/-!
# A verification model of the fig configuration loader

This file gives a shallow embedding, in Lean 4, of the core of the `fig`
Go library (package `fig`): the string helpers of `util.go`, the
aggregate error rendering of `error.go`, the tag parsing and path
construction of `field.go`, and the binding engine of `fig.go`
(`processCfg` / `processField` / `setFromEnv` / `formatEnvKey` /
`setDefaultValue` / `setValue` / `setSlice`), together with theorems
about them.

Go strings are modelled as lists of characters (`GoStr`); for the
ASCII strings manipulated here a character corresponds to a byte, so
byte-wise string order and `strings.ToUpper` coincide with the
character-wise model. Reflective values (`reflect.Value`) are modelled
by the inductive `RValue`, restricted to the kinds the library
dispatches on (pointer, interface, slice, array, bool, the signed and
unsigned integer kinds, string, and the struct kinds `time.Time`,
`regexp.Regexp` and generic structs, plus the invalid value); in-place
mutation through a `reflect.Value` handle is modelled by returning the
post-call value of the handle next to the error result.
-/

/-- A Go string, modelled as its list of characters. -/
abbrev GoStr := List Char

/-- Coerce a Lean string literal to the `GoStr` model. -/
def gs (s : String) : GoStr := s.toList

/-- `strings.HasPrefix s pre`. -/
def hasPrefixGo (s pre : GoStr) : Bool := pre.isPrefixOf s

/-- `strings.HasSuffix s suf`. -/
def hasSuffixGo (s suf : GoStr) : Bool := suf.isSuffixOf s

/-- `strings.TrimPrefix s pre`: drop `pre` from the front of `s` when present. -/
def trimPrefixGo (s pre : GoStr) : GoStr :=
  if hasPrefixGo s pre then s.drop pre.length else s

/-- `strings.TrimSuffix s suf`: drop `suf` from the end of `s` when present. -/
def trimSuffixGo (s suf : GoStr) : GoStr :=
  if hasSuffixGo s suf then s.take (s.length - suf.length) else s

/-- `strings.Split s sep` for a single-character separator `sep`:
splits around every occurrence of `sep`; the empty string yields `[""]`. -/
def splitGo (sep : Char) : GoStr → List GoStr
  | [] => [[]]
  | c :: rest =>
    if c = sep then [] :: splitGo sep rest
    else
      match splitGo sep rest with
      | [] => [[c]]
      | h :: t => (c :: h) :: t

/-- `strings.Trim s cutset` for the single-character cutset `cut`:
removes all leading and trailing occurrences of `cut`. -/
def trimCharGo (cut : Char) (s : GoStr) : GoStr :=
  ((s.dropWhile (· = cut)).reverse.dropWhile (· = cut)).reverse

/-- `strings.TrimSpace`: trim leading and trailing whitespace. -/
def trimSpaceGo (s : GoStr) : GoStr :=
  ((s.dropWhile Char.isWhitespace).reverse.dropWhile Char.isWhitespace).reverse

/-- `strings.ToUpper`, on the ASCII fragment the library manipulates. -/
def toUpperGo (s : GoStr) : GoStr := s.map Char.toUpper

/-- The character transform of `strings.NewReplacer(".", "_", "[", "_", "]", "")`
used by `formatEnvKey` (fig.go): `.` and `[` map to `_`, `]` is deleted.
All patterns are single characters, so the replacer is a character-wise map. -/
def envReplace : GoStr → GoStr
  | [] => []
  | c :: rest =>
    if c = '.' then '_' :: envReplace rest
    else if c = '[' then '_' :: envReplace rest
    else if c = ']' then envReplace rest
    else c :: envReplace rest

/-- `formatEnvKey` (fig.go): replace `.`/`[` with `_`, delete `]`,
prepend `prefix_` when an env prefix is configured, and upper-case. -/
def formatEnvKey (envPrefix key : GoStr) : GoStr :=
  let key := envReplace key
  let key := if envPrefix ≠ [] then envPrefix ++ '_' :: key else key
  toUpperGo key

/-- `stringSlice` (util.go): strip one leading `[` and one trailing `]`,
then split on commas. -/
def stringSlice (s : GoStr) : List GoStr :=
  splitGo ',' (trimSuffixGo (trimPrefixGo s (gs "[")) (gs "]"))

/-- `fmt.Sprintf "%d"` for a natural number. -/
def natToStr (n : Nat) : GoStr := Nat.toDigits 10 n

/-- The spec's description of the environment key computation, written
independently of `formatEnvKey`: the path with every `.` replaced by `_`,
every `[` replaced by `_`, every `]` deleted, the prefix followed by `_`
prepended when the prefix is non-empty, and the whole result upper-cased. -/
def envKeySpec (envPrefix key : GoStr) : GoStr :=
  toUpperGo
    ((if envPrefix = [] then [] else envPrefix ++ ['_']) ++
      key.filterMap fun c =>
        if c = '.' then some '_'
        else if c = '[' then some '_'
        else if c = ']' then none
        else some c)

theorem envReplace_eq_filterMap (key : GoStr) :
    envReplace key =
      key.filterMap fun c =>
        if c = '.' then some '_'
        else if c = '[' then some '_'
        else if c = ']' then none
        else some c := by
  induction key with
  | nil => rfl
  | cons c rest ih =>
    by_cases h1 : c = '.' <;> by_cases h2 : c = '[' <;> by_cases h3 : c = ']' <;>
      simp [envReplace, List.filterMap_cons, h1, h2, h3, ih]

/-- C4 -- For every field path and configured prefix, the environment
variable key computed by `formatEnvKey` equals the path with every `.`
replaced by `_`, every `[` replaced by `_`, every `]` deleted, the prefix
followed by `_` prepended when the prefix is non-empty, and the whole
result upper-cased; in particular path `nested[1].slice[2].twice` with
prefix `auth_s` yields `AUTH_S_NESTED_1_SLICE_2_TWICE`. -/
theorem formatEnvKey_spec :
    (∀ envPrefix key : GoStr, formatEnvKey envPrefix key = envKeySpec envPrefix key) ∧
      formatEnvKey (gs "auth_s") (gs "nested[1].slice[2].twice") =
        gs "AUTH_S_NESTED_1_SLICE_2_TWICE" := by
  constructor
  · intro envPrefix key
    unfold formatEnvKey envKeySpec
    rw [envReplace_eq_filterMap]
    by_cases h : envPrefix = [] <;> simp [h, toUpperGo]
  · decide

/-- Go string comparison `a < b` / `a <= b` as used by `sort.Strings`:
lexicographic in the characters (for the ASCII strings at hand this is
the byte-wise order Go uses). `goLe a b = true` means `a <= b`. -/
def goLe : GoStr → GoStr → Bool
  | [], _ => true
  | _ :: _, [] => false
  | a :: as, b :: bs =>
    if a.toNat < b.toNat then true
    else if b.toNat < a.toNat then false
    else goLe as bs

/-- The ordering relation induced by `goLe`. -/
def GoLeRel (a b : GoStr) : Prop := goLe a b = true

instance : DecidableRel GoLeRel := fun a b => instDecidableEqBool (goLe a b) true

theorem goLe_total (a b : GoStr) : goLe a b = true ∨ goLe b a = true := by
  induction a generalizing b with
  | nil => left; rfl
  | cons x xs ih =>
    cases b with
    | nil => right; rfl
    | cons y ys =>
      by_cases h1 : x.toNat < y.toNat
      · left; simp [goLe, h1]
      · by_cases h2 : y.toNat < x.toNat
        · right; simp [goLe, h2]
        · rcases ih ys with h | h
          · left; simp [goLe, h1, h2, h]
          · right; simp [goLe, h1, h2, h]

theorem goLe_trans (a b c : GoStr) (hab : goLe a b = true) (hbc : goLe b c = true) :
    goLe a c = true := by
  induction a generalizing b c with
  | nil => rfl
  | cons x xs ih =>
    cases b with
    | nil => simp [goLe] at hab
    | cons y ys =>
      cases c with
      | nil => simp [goLe] at hbc
      | cons z zs =>
        simp only [goLe] at hab hbc ⊢
        by_cases hxy : x.toNat < y.toNat
        · by_cases hyz : y.toNat < z.toNat
          · simp [Nat.lt_trans hxy hyz]
          · by_cases hzy : z.toNat < y.toNat
            · simp [hyz, hzy] at hbc
            · have hyz' : y.toNat = z.toNat :=
                Nat.le_antisymm (Nat.le_of_not_lt hzy) (Nat.le_of_not_lt hyz)
              have hxz : x.toNat < z.toNat := hyz' ▸ hxy
              simp [hxz]
        · by_cases hyx : y.toNat < x.toNat
          · simp [hxy, hyx] at hab
          · have hxy' : x.toNat = y.toNat :=
              Nat.le_antisymm (Nat.le_of_not_lt hyx) (Nat.le_of_not_lt hxy)
            have hab' : goLe xs ys = true := by simpa [hxy, hyx] using hab
            by_cases hyz : y.toNat < z.toNat
            · have hxz : x.toNat < z.toNat := hxy' ▸ hyz
              simp [hxz]
            · by_cases hzy : z.toNat < y.toNat
              · simp [hyz, hzy] at hbc
              · have hyz' : y.toNat = z.toNat :=
                  Nat.le_antisymm (Nat.le_of_not_lt hzy) (Nat.le_of_not_lt hyz)
                have hbc' : goLe ys zs = true := by simpa [hyz, hzy] using hbc
                have hxz1 : ¬x.toNat < z.toNat := by omega
                have hxz2 : ¬z.toNat < x.toNat := by omega
                simp [hxz1, hxz2, ih ys zs hab' hbc']

instance : IsTotal GoStr GoLeRel := ⟨goLe_total⟩
instance : IsTrans GoStr GoLeRel := ⟨fun a b c => goLe_trans a b c⟩

/-- `sort.Strings`: sort a list of strings in ascending lexicographic order. -/
def sortStrings (l : List GoStr) : List GoStr := List.insertionSort GoLeRel l

/-- Reading `fe[key].Error()` from the `fieldErrors` map, modelled as an
association list with distinct keys (a Go map holds one entry per key). -/
def lookupGet : List (GoStr × GoStr) → GoStr → GoStr
  | [], _ => []
  | (k, v) :: rest, key => if k = key then v else lookupGet rest key

/-- `strings.Join`-style separator interleaving (what the builder loop plus
`TrimSuffix` of `fieldErrors.Error` amounts to). -/
def joinSep (sep : GoStr) : List GoStr → GoStr
  | [] => []
  | [x] => x
  | x :: rest => x ++ sep ++ joinSep sep rest

/-- `fieldErrors.Error` (error.go): collect the map's keys, sort them,
write `key: message, ` for each into a builder, and trim the final `, `. -/
def fieldErrorsError (fe : List (GoStr × GoStr)) : GoStr :=
  trimSuffixGo
    ((sortStrings (fe.map Prod.fst)).foldl
      (fun sb key => sb ++ key ++ gs ": " ++ lookupGet fe key ++ gs ", ") [])
    (gs ", ")

theorem foldl_render (fe : List (GoStr × GoStr)) (keys : List GoStr) (init : GoStr) :
    keys.foldl (fun sb key => sb ++ key ++ gs ": " ++ lookupGet fe key ++ gs ", ") init =
      init ++ (keys.map fun key => key ++ gs ": " ++ lookupGet fe key ++ gs ", ").flatten := by
  induction keys generalizing init with
  | nil => simp
  | cons k rest ih =>
    rw [List.foldl_cons, ih, List.map_cons, List.flatten_cons]
    simp [List.append_assoc]

theorem flatten_map_append_sep (sep : GoStr) (rs : List GoStr) (h : rs ≠ []) :
    (rs.map (· ++ sep)).flatten = joinSep sep rs ++ sep := by
  induction rs with
  | nil => exact absurd rfl h
  | cons x rest ih =>
    cases rest with
    | nil => simp [joinSep]
    | cons y t =>
      have ih' := ih (by simp)
      rw [show joinSep sep (x :: y :: t) = x ++ sep ++ joinSep sep (y :: t) from rfl]
      rw [List.map_cons, List.flatten_cons, ih']
      simp [List.append_assoc]

theorem trimSuffixGo_append (x s : GoStr) : trimSuffixGo (x ++ s) s = x := by
  have hsuf : hasSuffixGo (x ++ s) s = true := by
    unfold hasSuffixGo
    rw [List.isSuffixOf_iff_suffix]
    exact List.suffix_append x s
  simp only [trimSuffixGo, hsuf, if_true, List.length_append, Nat.add_sub_cancel,
    List.take_left]

theorem map_lookupGet_self (fe : List (GoStr × GoStr)) (h : (fe.map Prod.fst).Nodup) :
    (fe.map Prod.fst).map (fun k => (k, lookupGet fe k)) = fe := by
  induction fe with
  | nil => rfl
  | cons kv rest ih =>
    obtain ⟨k, v⟩ := kv
    have hnd : k ∉ rest.map Prod.fst ∧ (rest.map Prod.fst).Nodup := by
      rw [List.map_cons, List.nodup_cons] at h
      exact h
    rw [List.map_cons, List.map_cons]
    have hhead : lookupGet ((k, v) :: rest) k = v := by simp [lookupGet]
    have hcongr : ∀ k' ∈ rest.map Prod.fst,
        (fun k' => (k', lookupGet ((k, v) :: rest) k')) k' =
          (fun k' => (k', lookupGet rest k')) k' := by
      intro k' hk'
      have hne : k ≠ k' := fun he => hnd.1 (by rw [he]; exact hk')
      simp [lookupGet, hne]
    rw [hhead, List.map_congr_left hcongr, ih hnd.2]

theorem fieldErrorsError_eq_joinSep (fe : List (GoStr × GoStr)) :
    fieldErrorsError fe =
      joinSep (gs ", ")
        ((sortStrings (fe.map Prod.fst)).map fun k => k ++ gs ": " ++ lookupGet fe k) := by
  unfold fieldErrorsError
  rw [foldl_render, List.nil_append]
  cases hk : sortStrings (fe.map Prod.fst) with
  | nil => simp [trimSuffixGo, hasSuffixGo, List.isSuffixOf, joinSep, gs]
  | cons k0 krest =>
    have hmap : ((k0 :: krest).map fun key => key ++ gs ": " ++ lookupGet fe key ++ gs ", ") =
        ((k0 :: krest).map fun key => key ++ gs ": " ++ lookupGet fe key).map (· ++ gs ", ") := by
      simp [List.map_map, Function.comp, List.append_assoc]
    rw [hmap, flatten_map_append_sep _ _ (by simp), trimSuffixGo_append]

/-- C3 -- Converting the aggregate `fieldErrors` to a string renders every
path-to-message entry exactly once as `path: message`, sorted by path and
joined by `, `; the mapping `{B -> berr, A -> aerr}` renders as
`A: aerr, B: berr`, and the empty mapping renders as the empty string. -/
theorem fieldErrorsError_spec (fe : List (GoStr × GoStr))
    (h : (fe.map Prod.fst).Nodup) :
    (∃ l : List (GoStr × GoStr),
        l.Perm fe ∧
        List.Sorted (fun p q : GoStr × GoStr => GoLeRel p.1 q.1) l ∧
        fieldErrorsError fe = joinSep (gs ", ") (l.map fun p => p.1 ++ gs ": " ++ p.2)) ∧
      fieldErrorsError [(gs "B", gs "berr"), (gs "A", gs "aerr")] = gs "A: aerr, B: berr" ∧
      fieldErrorsError [] = [] := by
  refine ⟨?_, by decide, rfl⟩
  refine ⟨(sortStrings (fe.map Prod.fst)).map (fun k => (k, lookupGet fe k)), ?_, ?_, ?_⟩
  · have hperm : (sortStrings (fe.map Prod.fst)).Perm (fe.map Prod.fst) :=
      List.perm_insertionSort GoLeRel _
    have := hperm.map (fun k => (k, lookupGet fe k))
    rwa [map_lookupGet_self fe h] at this
  · have hsorted : List.Sorted GoLeRel (sortStrings (fe.map Prod.fst)) :=
      List.sorted_insertionSort GoLeRel _
    exact List.pairwise_map.mpr hsorted
  · rw [fieldErrorsError_eq_joinSep]
    congr 1
    simp [List.map_map, Function.comp]

/-- The Go types (`reflect.Type`) a config field can have, restricted to
the kinds the library dispatches on. `timeT` and `regexpT` are the struct
types `time.Time` and `regexp.Regexp` that `setValue` and `isZero` detect
by type assertion; `structT` stands for every other struct type. -/
inductive RType where
  | ptrT (elem : RType)
  | ifaceT
  | sliceT (elem : RType)
  | arrayT (elem : RType) (n : Nat)
  | boolT
  | intT
  | uintT
  | stringT
  | timeT
  | regexpT
  | structT
deriving DecidableEq

/-- A Go reflective value (`reflect.Value`). A `time.Time` is identified
by its instant (the zero instant is `0`); a `regexp.Regexp` by the source
pattern of the compiled program, with `none` standing for the zero
instance `regexp.Regexp{}`; `structV` is a value of any other struct
type, with the list of its field values. -/
inductive RValue where
  | ptrV (elem : RType) (inner : Option RValue)
  | ifaceV (inner : Option RValue)
  | sliceV (elem : RType) (elems : List RValue)
  | arrayV (elem : RType) (elems : List RValue)
  | boolV (b : Bool)
  | intV (n : Int)
  | uintV (n : Nat)
  | stringV (s : GoStr)
  | timeV (t : Int)
  | regexpV (r : Option GoStr)
  | structV (fields : List RValue)
  | invalidV

/-- The zero value of a type (`reflect.New(t).Elem()`). -/
def zeroValue : RType → RValue
  | .ptrT e => .ptrV e none
  | .ifaceT => .ifaceV none
  | .sliceT e => .sliceV e []
  | .arrayT e n => .arrayV e (List.replicate n (zeroValue e))
  | .boolT => .boolV false
  | .intT => .intV 0
  | .uintT => .uintV 0
  | .stringT => .stringV []
  | .timeT => .timeV 0
  | .regexpT => .regexpV none
  | .structT => .structV []

/-- `isZero` (util.go): pointers and interfaces are zero iff nil; slices
and arrays iff of length 0; a struct is zero iff it is a `time.Time`
equal to the zero instant (any other struct, `regexp.Regexp` included,
falls through to `return false`); an invalid value is zero; every other
kind compares against its natural zero (`v.IsZero()`). -/
def isZero : RValue → Bool
  | .ptrV _ inner => inner.isNone
  | .ifaceV inner => inner.isNone
  | .sliceV _ elems => elems.isEmpty
  | .arrayV _ elems => elems.isEmpty
  | .timeV t => t == 0
  | .regexpV _ => false
  | .structV _ => false
  | .invalidV => true
  | .boolV b => b == false
  | .intV n => n == 0
  | .uintV n => n == 0
  | .stringV s => s.isEmpty

/-- `strconv.ParseBool`: the standard boolean tokens. -/
def parseBool (s : GoStr) : Option Bool :=
  if s = gs "1" ∨ s = gs "t" ∨ s = gs "T" ∨ s = gs "true" ∨ s = gs "TRUE" ∨ s = gs "True"
  then some true
  else if s = gs "0" ∨ s = gs "f" ∨ s = gs "F" ∨ s = gs "false" ∨ s = gs "FALSE" ∨ s = gs "False"
  then some false
  else none

def digitsToNatAux : GoStr → Nat → Option Nat
  | [], acc => some acc
  | c :: rest, acc =>
    if c.isDigit then digitsToNatAux rest (acc * 10 + (c.toNat - '0'.toNat)) else none

/-- Decimal digit-string to number; `none` when empty or non-digit. -/
def digitsToNat (s : GoStr) : Option Nat :=
  if s = [] then none else digitsToNatAux s 0

/-- `strconv.ParseInt(s, 10, 64)`: optional sign, decimal digits,
64-bit signed range check. -/
def parseInt64 (s : GoStr) : Except GoStr Int :=
  let signDigits : Bool × GoStr :=
    match s with
    | '+' :: rest => (false, rest)
    | '-' :: rest => (true, rest)
    | _ => (false, s)
  match digitsToNat signDigits.2 with
  | none => .error (gs "invalid syntax")
  | some n =>
    let v : Int := if signDigits.1 then -(n : Int) else (n : Int)
    if v < -(2 ^ 63 : Int) ∨ v > 2 ^ 63 - 1 then .error (gs "value out of range")
    else .ok v

/-- `strconv.ParseUint(s, 10, 64)`: decimal digits, no sign permitted,
64-bit unsigned range check. -/
def parseUint64 (s : GoStr) : Except GoStr Nat :=
  match digitsToNat s with
  | none => .error (gs "invalid syntax")
  | some n => if n > 2 ^ 64 - 1 then .error (gs "value out of range") else .ok n

/-- The external standard-library parsers `setValue` delegates to for the
special struct types: `time.Parse(layout, val)` (instant result) and
`regexp.Compile(val)` (the compiled value is identified by its source). -/
structure ExtParsers where
  timeParse : GoStr → GoStr → Except GoStr Int
  regexpCompile : GoStr → Except GoStr GoStr

/-- The `fig` configuration struct (fig.go), restricted to the fields the
binding engine reads. -/
structure FigCfg where
  useEnv : Bool
  envPrefix : GoStr
  timeLayout : GoStr
  parsers : ExtParsers

/-- The element loop of `setSlice` (fig.go), abstracted over the setter
`setE` for the element type and the fresh zero element `z` of that type:
coerce each segment into a fresh zero element, stopping at the first
error. -/
def setListWith (setE : RValue → GoStr → Option GoStr × RValue) (z : RValue) :
    List GoStr → Except GoStr (List RValue)
  | [] => .ok []
  | s :: rest =>
    match setE z s with
    | (some er, _) => .error er
    | (none, x) =>
      match setListWith setE z rest with
      | .error er => .error er
      | .ok xs => .ok (x :: xs)

/-- `setSlice` (fig.go), abstracted over the element setter: split `val`
with `stringSlice`, build a fresh slice coercing one element per segment,
and assign it to the target only when every element coerced; on a failed
element the error is returned and the target keeps its previous value
`sv`. -/
def setSliceWith (setE : RValue → GoStr → Option GoStr × RValue) (z : RValue)
    (sv : List RValue) (val : GoStr) : Option GoStr × List RValue :=
  match setListWith setE z (stringSlice val) with
  | .error er => (some er, sv)
  | .ok xs => (none, xs)

/-- `setValue` (fig.go): dispatch on the field's kind and coerce the
string `val` into it. Mutation of the `reflect.Value` handle is modelled
by returning the post-call value next to the error: on a parse error the
value is returned unchanged, except through a nil pointer, where the
pointed-to zero value has already been allocated. Duration and float
fields are outside the modelled universe; every kind with no `setValue`
case (interfaces, arrays, structs other than `time.Time`/`regexp.Regexp`)
returns the `unsupported type` error of the `default` branch. -/
def setValue (f : FigCfg) : RType → RValue → GoStr → Option GoStr × RValue
  | .ptrT e, v, val =>
    let cur := match v with
      | .ptrV _ (some x) => x
      | _ => zeroValue e
    let res := setValue f e cur val
    (res.1, .ptrV e (some res.2))
  | .sliceT e, v, val =>
    let old := match v with
      | .sliceV _ xs => xs
      | _ => []
    let res := setSliceWith (setValue f e) (zeroValue e) old val
    (res.1, .sliceV e res.2)
  | .boolT, v, val =>
    match parseBool val with
    | some b => (none, .boolV b)
    | none => (some (gs "invalid syntax"), v)
  | .intT, v, val =>
    match parseInt64 val with
    | .ok n => (none, .intV n)
    | .error e => (some e, v)
  | .uintT, v, val =>
    match parseUint64 val with
    | .ok n => (none, .uintV n)
    | .error e => (some e, v)
  | .stringT, _, val => (none, .stringV val)
  | .timeT, v, val =>
    match f.parsers.timeParse f.timeLayout val with
    | .ok t => (none, .timeV t)
    | .error e => (some e, v)
  | .regexpT, v, val =>
    match f.parsers.regexpCompile val with
    | .ok pat => (none, .regexpV (some pat))
    | .error e => (some e, v)
  | .structT, v, _ => (some (gs "unsupported type struct"), v)
  | .arrayT _ _, v, _ => (some (gs "unsupported type array"), v)
  | .ifaceT, v, _ => (some (gs "unsupported type interface"), v)

/-- `setSlice` (fig.go) proper, with the element setter instantiated the
way `setValue` instantiates it for a slice of element type `e`. -/
def setSlice (f : FigCfg) (e : RType) (sv : List RValue) (val : GoStr) :
    Option GoStr × List RValue :=
  setSliceWith (setValue f e) (zeroValue e) sv val

/-- The element loop of `setSlice` proper. -/
def setList (f : FigCfg) (e : RType) (ss : List GoStr) : Except GoStr (List RValue) :=
  setListWith (setValue f e) (zeroValue e) ss

/-- `setDefaultValue` (fig.go): reject fields of boolean kind, then
delegate to `setValue`. -/
def setDefaultValue (f : FigCfg) (ty : RType) (v : RValue) (val : GoStr) :
    Option GoStr × RValue :=
  if ty = .boolT then (some (gs "unsupported type: bool"), v)
  else setValue f ty v val

/-- `setFromEnv` (fig.go): look up the formatted key in the process
environment (modelled as a partial map) and coerce its value when set. -/
def setFromEnv (f : FigCfg) (env : GoStr → Option GoStr) (ty : RType) (v : RValue)
    (key : GoStr) : Option GoStr × RValue :=
  match env (formatEnvKey f.envPrefix key) with
  | some val => setValue f ty v val
  | none => (none, v)

/-- A flattened bindable field as the binding engine sees it: its path,
declared type, current value, and resolved tag data (`required`,
`setDefault`, `defaultVal`). -/
structure FField where
  path : GoStr
  ty : RType
  value : RValue
  required : Bool
  setDefault : Bool
  defaultVal : GoStr

/-- `processField` (fig.go): mutual-exclusion gate, then environment
overlay (when enabled), then the required check, then default
application. Returns the field error (if any) and the field's post-call
value. -/
def processField (f : FigCfg) (env : GoStr → Option GoStr) (fl : FField) :
    Option GoStr × RValue :=
  if fl.required && fl.setDefault then
    (some (gs "field cannot have both a required validation and a default value"), fl.value)
  else
    let envRes := if f.useEnv then setFromEnv f env fl.ty fl.value fl.path
      else (none, fl.value)
    match envRes with
    | (some e, v1) => (some (gs "unable to set from env: " ++ e), v1)
    | (none, v1) =>
      if fl.required && isZero v1 then (some (gs "required validation failed"), v1)
      else if fl.setDefault && isZero v1 then
        match setDefaultValue f fl.ty v1 fl.defaultVal with
        | (some e, v2) => (some (gs "unable to set default: " ++ e), v2)
        | (none, v2) => (none, v2)
      else (none, v1)

/-- Go map assignment `errs[k] = v`: replace the entry when the key is
present, append it otherwise. -/
def mapSet : List (GoStr × GoStr) → GoStr → GoStr → List (GoStr × GoStr)
  | [], k, v => [(k, v)]
  | (k', v') :: rest, k, v =>
    if k' = k then (k, v) :: rest else (k', v') :: mapSet rest k v

/-- The field loop of `processCfg` (fig.go), carrying the `fieldErrors`
map built so far; returns the final map and the post-call fields. -/
def processCfgAux (f : FigCfg) (env : GoStr → Option GoStr) :
    List FField → List (GoStr × GoStr) → List (GoStr × GoStr) × List FField
  | [], errs => (errs, [])
  | fl :: rest, errs =>
    let res := processField f env fl
    let errs' := match res.1 with
      | some e => mapSet errs fl.path e
      | none => errs
    let recRes := processCfgAux f env rest errs'
    (recRes.1, { fl with value := res.2 } :: recRes.2)

/-- `processCfg` (fig.go): process every flattened field, recording each
failing field's error under its path; the returned map is empty exactly
when `processCfg` returns nil. -/
def processCfg (f : FigCfg) (env : GoStr → Option GoStr) (fields : List FField) :
    List (GoStr × GoStr) × List FField :=
  processCfgAux f env fields []

/-- Concrete stand-ins for the external standard-library parsers, for
evaluating the model at concrete inputs. -/
def dummyParsers : ExtParsers :=
  ⟨fun _ _ => .error (gs "parsing time error"), fun _ => .error (gs "error parsing regexp")⟩

/-- A concrete `fig` configuration with the environment overlay disabled
(the `defaultFig` of fig.go). -/
def figEnvOff : FigCfg := ⟨false, [], gs "2006-01-02T15:04:05Z07:00", dummyParsers⟩

/-- A concrete `fig` configuration with the environment overlay enabled
and an `app` prefix. -/
def figEnvOn : FigCfg := ⟨true, gs "app", gs "2006-01-02T15:04:05Z07:00", dummyParsers⟩

/-- A concrete empty process environment. -/
def env0 : GoStr → Option GoStr := fun _ => none

/-- A concrete field whose tag carries both `required` and a default. -/
def conflictField : FField := ⟨gs "A", .stringT, .stringV (gs "x"), true, true, gs "d"⟩

theorem setListWith_error (setE : RValue → GoStr → Option GoStr × RValue) (z : RValue)
    (ss : List GoStr) (h : ∃ s ∈ ss, (setE z s).1.isSome) :
    ∃ er, setListWith setE z ss = .error er := by
  induction ss with
  | nil => simp at h
  | cons s rest ih =>
    rcases h with ⟨s', hs', hsome⟩
    rcases List.mem_cons.mp hs' with rfl | hmem
    · rcases hE : setE z s' with ⟨fst, snd⟩
      cases fst with
      | none => rw [hE] at hsome; simp at hsome
      | some er => exact ⟨er, by simp [setListWith, hE]⟩
    · rcases hE : setE z s with ⟨fst, snd⟩
      cases fst with
      | none =>
        rcases ih ⟨s', hmem, hsome⟩ with ⟨er, her⟩
        exact ⟨er, by simp [setListWith, hE, her]⟩
      | some er => exact ⟨er, by simp [setListWith, hE]⟩

theorem setListWith_ok (setE : RValue → GoStr → Option GoStr × RValue) (z : RValue)
    (ss : List GoStr) (h : ∀ s ∈ ss, (setE z s).1 = none) :
    setListWith setE z ss = .ok (ss.map fun s => (setE z s).2) := by
  induction ss with
  | nil => rfl
  | cons s rest ih =>
    rcases hE : setE z s with ⟨fst, snd⟩
    have hfst : fst = none := by
      have := h s (List.mem_cons_self s rest); rwa [hE] at this
    subst hfst
    have hrest := ih fun s' hs' => h s' (List.mem_cons_of_mem s hs')
    simp [setListWith, hE, hrest]

/-- C10 -- Coercing a list literal into a slice field is atomic: `setSlice`
builds a completely new slice, coercing each comma-separated segment into
a fresh element, and assigns it only after every element has coerced; if
any element's coercion fails, the error is returned and the target slice
keeps its previous value. -/
theorem setSlice_atomic (f : FigCfg) (e : RType) (old : List RValue) (val : GoStr) :
    ((∃ s ∈ stringSlice val, (setValue f e (zeroValue e) s).1.isSome) →
        ∃ er, setSlice f e old val = (some er, old)) ∧
    ((∀ s ∈ stringSlice val, (setValue f e (zeroValue e) s).1 = none) →
        setSlice f e old val =
          (none, (stringSlice val).map fun s => (setValue f e (zeroValue e) s).2)) := by
  constructor
  · intro h
    rcases setListWith_error (setValue f e) (zeroValue e) (stringSlice val) h with ⟨er, her⟩
    exact ⟨er, by simp [setSlice, setSliceWith, her]⟩
  · intro h
    have := setListWith_ok (setValue f e) (zeroValue e) (stringSlice val) h
    simp [setSlice, setSliceWith, this]

/-- Witness for `setSlice_atomic`: a failing element (`x` in `[80,x]`)
leaves the previous slice value `{7}` untouched, and an all-good literal
`[80,443]` builds the fresh slice. -/
theorem setSlice_atomic_witness :
    (∃ er, setSlice figEnvOff .intT [.intV 7] (gs "[80,x]") = (some er, [.intV 7])) ∧
      setSlice figEnvOff .intT [.intV 7] (gs "[80,443]") =
        (none, (stringSlice (gs "[80,443]")).map fun s =>
          (setValue figEnvOff .intT (zeroValue .intT) s).2) :=
  ⟨(setSlice_atomic figEnvOff .intT [.intV 7] (gs "[80,x]")).1
      ⟨gs "x", by simp [stringSlice, gs, splitGo, trimPrefixGo, trimSuffixGo, hasPrefixGo,
        hasSuffixGo, List.isPrefixOf, List.isSuffixOf], rfl⟩,
    (setSlice_atomic figEnvOff .intT [.intV 7] (gs "[80,443]")).2
      (by intro s hs
          have : stringSlice (gs "[80,443]") = [gs "80", gs "443"] := rfl
          rw [this] at hs
          rcases List.mem_cons.mp hs with rfl | hs'
          · rfl
          · rcases List.mem_cons.mp hs' with rfl | hs''
            · rfl
            · simp at hs'')⟩

theorem stringSlice_bracket (s : GoStr) (h1 : hasPrefixGo s (gs "[") = false)
    (h2 : hasSuffixGo s (gs "]") = false) :
    stringSlice ('[' :: s ++ [']']) = stringSlice s := by
  unfold stringSlice
  have hpre : trimPrefixGo ('[' :: s ++ [']']) (gs "[") = s ++ [']'] := by
    simp [trimPrefixGo, hasPrefixGo, gs, List.isPrefixOf]
  have hsuf : trimSuffixGo (s ++ [']']) (gs "]") = s := trimSuffixGo_append s (gs "]")
  rw [show ('[' :: s ++ [']'] : GoStr) = '[' :: (s ++ [']']) from rfl] at *
  rw [hpre, hsuf]
  rw [show trimPrefixGo s (gs "[") = s from by simp [trimPrefixGo, h1]]
  rw [show trimSuffixGo s (gs "]") = s from by simp [trimSuffixGo, h2]]

/-- C7 -- For every string `s` that does not itself begin with `[` or end
with `]`, coercing the literal `[s]` into a slice field gives the same
slice and the same error outcome as coercing `s` directly; in particular
`[80,443]` into an int-slice field yields `{80, 443}` and `5,10,15`
yields `{5, 10, 15}`. -/
theorem setSlice_bracket_equiv :
    (∀ (s : GoStr) (f : FigCfg) (e : RType) (old : List RValue),
        hasPrefixGo s (gs "[") = false → hasSuffixGo s (gs "]") = false →
        setSlice f e old ('[' :: s ++ [']']) = setSlice f e old s) ∧
      setSlice figEnvOff .intT [] (gs "[80,443]") = (none, [.intV 80, .intV 443]) ∧
      setSlice figEnvOff .intT [] (gs "5,10,15") =
        (none, [.intV 5, .intV 10, .intV 15]) := by
  refine ⟨?_, by rfl, by rfl⟩
  intro s f e old h1 h2
  unfold setSlice setSliceWith
  rw [stringSlice_bracket s h1 h2]

/-- Witness for `setSlice_bracket_equiv`: instantiated at `80,443`. -/
theorem setSlice_bracket_equiv_witness :
    setSlice figEnvOff .intT [.intV 1] ('[' :: gs "80,443" ++ [']']) =
      setSlice figEnvOff .intT [.intV 1] (gs "80,443") :=
  setSlice_bracket_equiv.1 (gs "80,443") figEnvOff .intT [.intV 1] rfl rfl

/-- C9 -- Applying a default literal to a boolean field always fails with
an `unsupported type` error, rejected by `setDefaultValue` before any
coercion; setting the same boolean field from an environment variable via
`setValue` succeeds whenever the literal parses as a standard boolean
token. -/
theorem bool_default_disallowed :
    (∀ (f : FigCfg) (v : RValue) (val : GoStr),
        setDefaultValue f .boolT v val = (some (gs "unsupported type: bool"), v)) ∧
    (∀ (f : FigCfg) (v : RValue) (val : GoStr) (b : Bool),
        parseBool val = some b → setValue f .boolT v val = (none, .boolV b)) := by
  constructor
  · intro f v val; simp [setDefaultValue]
  · intro f v val b h; simp [setValue, h]

/-- Witness for `bool_default_disallowed`: a boolean field rejects the
default literal `true` but accepts it from the environment path. -/
theorem bool_default_disallowed_witness :
    setDefaultValue figEnvOff .boolT (.boolV false) (gs "true") =
      (some (gs "unsupported type: bool"), .boolV false) ∧
    parseBool (gs "true") = some true ∧
    setValue figEnvOff .boolT (.boolV false) (gs "true") = (none, .boolV true) :=
  ⟨bool_default_disallowed.1 figEnvOff (.boolV false) (gs "true"), rfl,
    bool_default_disallowed.2 figEnvOff (.boolV false) (gs "true") true rfl⟩

theorem processField_conflict (f : FigCfg) (env : GoStr → Option GoStr) (fl : FField)
    (hreq : fl.required = true) (hdef : fl.setDefault = true) :
    processField f env fl =
      (some (gs "field cannot have both a required validation and a default value"),
        fl.value) := by
  simp [processField, hreq, hdef]

theorem lookup_mapSet_self (m : List (GoStr × GoStr)) (k v : GoStr) :
    (mapSet m k v).lookup k = some v := by
  induction m with
  | nil => simp [mapSet, List.lookup]
  | cons p rest ih =>
    obtain ⟨k', v'⟩ := p
    by_cases h : k' = k
    · simp [mapSet, h, List.lookup]
    · have hbe : (k == k') = false := beq_eq_false_iff_ne.mpr (Ne.symm h)
      simp [mapSet, h, List.lookup, hbe, ih]

theorem lookup_mapSet_ne (m : List (GoStr × GoStr)) (k v k' : GoStr) (h : k' ≠ k) :
    (mapSet m k v).lookup k' = m.lookup k' := by
  induction m with
  | nil =>
    have hbe : (k' == k) = false := beq_eq_false_iff_ne.mpr h
    simp [mapSet, List.lookup, hbe]
  | cons p rest ih =>
    obtain ⟨a, b⟩ := p
    by_cases ha : a = k
    · subst ha
      have hbe : (k' == a) = false := beq_eq_false_iff_ne.mpr h
      simp [mapSet, List.lookup, hbe]
    · have hm : mapSet ((a, b) :: rest) k v = (a, b) :: mapSet rest k v := by
        simp [mapSet, ha]
      rw [hm]
      cases hbe : k' == a <;> simp [List.lookup, hbe, ih]

theorem lookup_mapSet_isSome (m : List (GoStr × GoStr)) (k v k' : GoStr)
    (h : (m.lookup k').isSome) : ((mapSet m k v).lookup k').isSome := by
  by_cases hk : k' = k
  · subst hk; rw [lookup_mapSet_self]; rfl
  · rwa [lookup_mapSet_ne m k v k' hk]

theorem processCfgAux_fst_cons (f : FigCfg) (env : GoStr → Option GoStr) (fl : FField)
    (rest : List FField) (errs : List (GoStr × GoStr)) :
    (processCfgAux f env (fl :: rest) errs).1 =
      (processCfgAux f env rest
        (match (processField f env fl).1 with
          | some e => mapSet errs fl.path e
          | none => errs)).1 := rfl

theorem processCfgAux_mono (f : FigCfg) (env : GoStr → Option GoStr)
    (fields : List FField) (errs : List (GoStr × GoStr)) (p : GoStr)
    (h : (errs.lookup p).isSome) :
    (((processCfgAux f env fields errs).1).lookup p).isSome := by
  induction fields generalizing errs with
  | nil => exact h
  | cons fl rest ih =>
    rw [processCfgAux_fst_cons]
    cases hpf : (processField f env fl).1 with
    | none => exact ih errs h
    | some e => exact ih (mapSet errs fl.path e) (lookup_mapSet_isSome errs fl.path e p h)

theorem processCfgAux_records (f : FigCfg) (env : GoStr → Option GoStr)
    (fields : List FField) (fl : FField) (errs : List (GoStr × GoStr))
    (hmem : fl ∈ fields) (herr : (processField f env fl).1.isSome) :
    (((processCfgAux f env fields errs).1).lookup fl.path).isSome := by
  induction fields generalizing errs with
  | nil => cases hmem
  | cons g rest ih =>
    rw [processCfgAux_fst_cons]
    rcases List.mem_cons.mp hmem with rfl | hmem'
    · cases hpf : (processField f env fl).1 with
      | none => rw [hpf] at herr; simp at herr
      | some e =>
        exact processCfgAux_mono f env rest (mapSet errs fl.path e) fl.path
          (by rw [lookup_mapSet_self]; rfl)
    · cases hpf : (processField f env g).1 with
      | none => exact ih errs hmem'
      | some e => exact ih (mapSet errs g.path e) hmem'

/-- C1 -- A field whose resolved tag marks it both required and carrying a
default is failed by `processField` at its mutual-exclusion gate, before
the field's value or the environment overlay is even consulted, and
`processCfg` records that error in the aggregate error under the field's
exact path. -/
theorem requiredDefault_conflict (f : FigCfg) (env : GoStr → Option GoStr)
    (fields : List FField) (fl : FField) (hmem : fl ∈ fields)
    (hreq : fl.required = true) (hdef : fl.setDefault = true) :
    processField f env fl =
      (some (gs "field cannot have both a required validation and a default value"),
        fl.value) ∧
    ∃ e, ((processCfg f env fields).1).lookup fl.path = some e := by
  have hgate := processField_conflict f env fl hreq hdef
  refine ⟨hgate, ?_⟩
  have hsome : (processField f env fl).1.isSome := by rw [hgate]; rfl
  have := processCfgAux_records f env fields fl [] hmem hsome
  exact Option.isSome_iff_exists.mp this

/-- Witness for `requiredDefault_conflict`: a required-and-default field
with a non-zero value, under an enabled environment overlay, still gets a
field error recorded at its path. -/
theorem requiredDefault_conflict_witness :
    processField figEnvOn env0 conflictField =
      (some (gs "field cannot have both a required validation and a default value"),
        conflictField.value) ∧
    ∃ e, ((processCfg figEnvOn env0 [conflictField]).1).lookup conflictField.path = some e :=
  requiredDefault_conflict figEnvOn env0 [conflictField] conflictField
    (List.mem_singleton_self conflictField) rfl rfl

theorem processField_noop (f : FigCfg) (env : GoStr → Option GoStr) (fl : FField)
    (henv : f.useEnv = false) (hnz : isZero fl.value = false)
    (hok : ¬(fl.required = true ∧ fl.setDefault = true)) :
    processField f env fl = (none, fl.value) := by
  have hgate : (fl.required && fl.setDefault) = false := by
    cases hr : fl.required <;> cases hd : fl.setDefault <;> simp_all
  simp [processField, hgate, henv, hnz]

/-- C2 (amended) -- Provided no field is annotated both required and
default, running the binding engine on a record in which every flattened
field's value is non-zero, with the environment overlay disabled, returns
no error and leaves every field's value unchanged: defaults are applied
only to values satisfying the zero-value predicate. -/
theorem processCfg_rebind_idempotent (f : FigCfg) (env : GoStr → Option GoStr)
    (fields : List FField) (henv : f.useEnv = false)
    (hnz : ∀ fl ∈ fields, isZero fl.value = false)
    (hok : ∀ fl ∈ fields, ¬(fl.required = true ∧ fl.setDefault = true)) :
    processCfg f env fields = ([], fields) := by
  suffices h : ∀ errs, processCfgAux f env fields errs = (errs, fields) from h []
  induction fields with
  | nil => intro errs; rfl
  | cons fl rest ih =>
    intro errs
    have hfl := processField_noop f env fl henv
      (hnz fl (List.mem_cons_self fl rest)) (hok fl (List.mem_cons_self fl rest))
    have ih' := ih (fun g hg => hnz g (List.mem_cons_of_mem fl hg))
      (fun g hg => hok g (List.mem_cons_of_mem fl hg)) errs
    simp [processCfgAux, hfl, ih']

/-- Witness for `processCfg_rebind_idempotent`: a required, already-set
field passes through untouched. -/
theorem processCfg_rebind_idempotent_witness :
    processCfg figEnvOff env0 [⟨gs "B", .intT, .intV 3, true, false, []⟩] =
      ([], [⟨gs "B", .intT, .intV 3, true, false, []⟩]) :=
  processCfg_rebind_idempotent figEnvOff env0 _ rfl
    (by intro fl hfl
        rw [List.mem_singleton.mp hfl]
        rfl)
    (by intro fl hfl
        rw [List.mem_singleton.mp hfl]
        simp)

/-- C2 counterexample -- A record satisfying the claim's hypotheses (every
flattened field non-zero, environment overlay disabled) on which the
binding engine nevertheless reports an error: the field is annotated both
required and default, so the mutual-exclusion gate fires regardless of
the field's value. -/
theorem processCfg_rebind_cex :
    figEnvOff.useEnv = false ∧
    (∀ fl ∈ [conflictField], isZero fl.value = false) ∧
    (processCfg figEnvOff env0 [conflictField]).1 ≠ [] := by
  refine ⟨rfl, ?_, ?_⟩
  · intro fl hfl
    rw [List.mem_singleton.mp hfl]
    rfl
  · have h : (processCfg figEnvOff env0 [conflictField]).1 =
        [(gs "A", gs "field cannot have both a required validation and a default value")] :=
      rfl
    rw [h]
    simp

/-- C5 counterexample -- The zero instance of the compiled-regex struct
type (`regexp.Regexp{}`) is NOT considered zero by `isZero`: the struct
case of `isZero` only special-cases `time.Time` and returns `false` for
every other struct, so the claimed "compiled-regex value is zero iff it
equals the pattern type's zero instance" fails at that value. -/
theorem isZero_regexp_cex : isZero (RValue.regexpV none) = false := rfl

/-- C5 (amended) -- The zero-value predicate holds exactly when: a pointer
or interface is nil; a slice or array has length 0; a `time.Time` equals
the zero instant; an invalid value is zero; any struct other than
`time.Time` — compiled-regex values included, even the pattern type's
zero instance — is never zero; and every other kind equals its type's
natural zero value. -/
theorem isZero_spec :
    (∀ (e : RType) (inner : Option RValue), isZero (.ptrV e inner) = true ↔ inner = none) ∧
    (∀ inner : Option RValue, isZero (.ifaceV inner) = true ↔ inner = none) ∧
    (∀ (e : RType) (elems : List RValue), isZero (.sliceV e elems) = true ↔ elems = []) ∧
    (∀ (e : RType) (elems : List RValue), isZero (.arrayV e elems) = true ↔ elems = []) ∧
    (∀ t : Int, isZero (.timeV t) = true ↔ t = 0) ∧
    (∀ r : Option GoStr, isZero (.regexpV r) = false) ∧
    (∀ fields : List RValue, isZero (.structV fields) = false) ∧
    isZero .invalidV = true ∧
    (∀ b : Bool, isZero (.boolV b) = true ↔ b = false) ∧
    (∀ n : Int, isZero (.intV n) = true ↔ n = 0) ∧
    (∀ n : Nat, isZero (.uintV n) = true ↔ n = 0) ∧
    (∀ s : GoStr, isZero (.stringV s) = true ↔ s = []) := by
  refine ⟨?_, ?_, ?_, ?_, ?_, ?_, ?_, rfl, ?_, ?_, ?_, ?_⟩ <;>
    intros <;> simp [isZero, Option.isNone_iff_eq_none, List.isEmpty_iff]

/-- `structTag` (field.go): the parsed annotation of a field. -/
structure StructTag where
  name : GoStr
  required : Bool
  defaultVal : GoStr
deriving DecidableEq

/-- The loop of `splitTag` (field.go), carrying the `inString` flag and
the span accumulated since the last split point (`tag[start:i]`): a comma
splits only outside square brackets, `[` raises and `]` lowers the flag
(both staying inside the segment); the final span is appended only when
non-empty (`start < len(tag)`). -/
def splitTagAux : GoStr → Bool → GoStr → List GoStr
  | [], _, cur => if cur = [] then [] else [cur]
  | c :: rest, inString, cur =>
    if c = ',' ∧ inString = false then cur :: splitTagAux rest inString []
    else if c = '[' then splitTagAux rest true (cur ++ [c])
    else if c = ']' then splitTagAux rest false (cur ++ [c])
    else splitTagAux rest inString (cur ++ [c])

/-- `splitTag` (field.go): comma-split that does not split inside square
brackets. -/
def splitTag (tag : GoStr) : List GoStr := splitTagAux tag false []

/-- `parseTag` (field.go), as a function of the raw annotation string:
zero segments give the empty descriptor; one segment sets the (space
trimmed) alternate name; two segments additionally read `required` or a
`default=` literal, rejecting any other second segment — including a
`default=` with nothing after it — as `invalid tag value`; more segments
are `too many values in tag`. -/
def parseTagGo (tagVal : GoStr) : Except GoStr StructTag :=
  match splitTag tagVal with
  | [] => .ok ⟨[], false, []⟩
  | [v0] => .ok ⟨trimSpaceGo v0, false, []⟩
  | [v0, v1] =>
    if (v1 == gs "required") = false ∧
        (if hasPrefixGo v1 (gs "default=") then v1.drop (gs "default=").length
          else []).length = 0 then
      .error (gs "invalid tag value: " ++ v1)
    else
      .ok ⟨trimSpaceGo v0, v1 == gs "required",
        if hasPrefixGo v1 (gs "default=") then v1.drop (gs "default=").length else []⟩
  | vals => .error (gs "too many values (" ++ natToStr vals.length ++ gs ") in tag")

/-- C6 counterexample -- the second segment `default=` begins with the
literal prefix `default=`, yet `parseTag` rejects it (empty default
literal) instead of accepting it with an empty remainder, so the claim's
two-segment rule fails at tag `n,default=`. -/
theorem parseTag_default_empty_cex :
    hasPrefixGo (gs "default=") (gs "default=") = true ∧
    splitTag (gs "n,default=") = [gs "n", gs "default="] ∧
    parseTagGo (gs "n,default=") = .error (gs "invalid tag value: default=") :=
  ⟨rfl, rfl, rfl⟩

/-- C6 (amended) -- The tag parser splits the annotation on commas that
are not inside square brackets, and then: zero segments yield the empty
descriptor with no error; one segment sets only the (space-trimmed)
alternate name; with two segments the second must be exactly `required`
or begin with `default=` with a non-empty remainder (the remainder
becoming the default literal), and any other second segment — the bare
`default=` included — yields an `invalid tag value` error; three or more
segments yield a `too many values in tag` error. -/
theorem parseTag_cases (tagVal a b : GoStr) (rest : List GoStr) :
    (splitTag tagVal = [] → parseTagGo tagVal = .ok ⟨[], false, []⟩) ∧
    (splitTag tagVal = [a] → parseTagGo tagVal = .ok ⟨trimSpaceGo a, false, []⟩) ∧
    (splitTag tagVal = [a, b] → b = gs "required" →
        parseTagGo tagVal = .ok ⟨trimSpaceGo a, true, []⟩) ∧
    (splitTag tagVal = [a, b] → hasPrefixGo b (gs "default=") = true →
        b ≠ gs "default=" →
        parseTagGo tagVal = .ok ⟨trimSpaceGo a, false, b.drop (gs "default=").length⟩) ∧
    (splitTag tagVal = [a, b] → b ≠ gs "required" →
        (hasPrefixGo b (gs "default=") = false ∨ b = gs "default=") →
        parseTagGo tagVal = .error (gs "invalid tag value: " ++ b)) ∧
    (splitTag tagVal = a :: b :: rest → rest ≠ [] →
        parseTagGo tagVal =
          .error (gs "too many values (" ++ natToStr (rest.length + 2) ++ gs ") in tag")) := by
  refine ⟨?_, ?_, ?_, ?_, ?_, ?_⟩
  · intro hsplit; unfold parseTagGo; rw [hsplit]
  · intro hsplit; unfold parseTagGo; rw [hsplit]
  · intro hsplit hb
    subst hb
    unfold parseTagGo; rw [hsplit]
    have h1 : (gs "required" == gs "required") = true := by decide
    have h2 : hasPrefixGo (gs "required") (gs "default=") = false := by decide
    simp [h1, h2]
  · intro hsplit hpre hne
    have hbr : (b == gs "required") = false := by
      apply beq_eq_false_iff_ne.mpr
      intro he
      rw [he] at hpre
      exact absurd hpre (by decide)
    have hdrop : b.drop (gs "default=").length ≠ [] := by
      unfold hasPrefixGo at hpre
      rcases (List.isPrefixOf_iff_prefix.mp hpre) with ⟨t, ht⟩
      intro hdz
      rw [← ht, List.drop_left] at hdz
      rw [← ht, hdz] at hne
      simp at hne
    unfold parseTagGo; rw [hsplit]
    simp only [hbr, hpre, if_true]
    rw [if_neg]
    intro hcond
    exact hdrop (List.length_eq_zero.mp hcond.2)
  · intro hsplit hbr hrest
    have hbr' : (b == gs "required") = false := beq_eq_false_iff_ne.mpr hbr
    unfold parseTagGo; rw [hsplit]
    rcases hrest with hpre | hde
    · simp [hbr', hpre]
    · subst hde
      simp [hbr']
  · intro hsplit hne
    cases rest with
    | nil => exact absurd rfl hne
    | cons c rest' =>
      unfold parseTagGo; rw [hsplit]
      simp [List.length_cons]

/-- Witness for `parseTag_cases`: the bracket-protected default tag
`ports,default=[80,443]` parses to name `ports` with default literal
`[80,443]`. -/
theorem parseTag_cases_witness :
    splitTag (gs "ports,default=[80,443]") = [gs "ports", gs "default=[80,443]"] ∧
    parseTagGo (gs "ports,default=[80,443]") =
      .ok ⟨trimSpaceGo (gs "ports"), false, (gs "default=[80,443]").drop (gs "default=").length⟩ :=
  ⟨rfl,
    (parseTag_cases (gs "ports,default=[80,443]") (gs "ports") (gs "default=[80,443]")
          []).2.2.2.1
      rfl rfl (by decide)⟩

/-- The data of one node on a field's parent chain (field.go): the tag
name and struct-field name feeding `field.name()`, the slice index
discriminator (`sliceIdx >= 0` in the source), and whether the node's
declared type is of slice or array kind (the `field.path()` dot rule). -/
structure PFieldData where
  tagName : GoStr
  stName : GoStr
  sliceIdx : Option Nat
  sliceOrArray : Bool

/-- `field.name()` (field.go): a slice member's name is its bracketed
index; otherwise the tag-supplied name when non-empty, else the struct
field's own name. -/
def fieldName (d : PFieldData) : GoStr :=
  match d.sliceIdx with
  | some i => '[' :: natToStr i ++ [']']
  | none => if d.tagName ≠ [] then d.tagName else d.stName

/-- The `visit` closure of `field.path()` (field.go), over the chain of
fields from the topmost parent down to the field itself: append each
node's name, followed by a dot unless the node's type is a slice or an
array. -/
def pathVisit : List PFieldData → GoStr
  | [] => []
  | d :: rest => (fieldName d ++ if d.sliceOrArray then [] else ['.']) ++ pathVisit rest

/-- `field.path()` (field.go): run `visit` from the root, then
`strings.Trim(path, ".")`. -/
def fieldPath (chain : List PFieldData) : GoStr := trimCharGo '.' (pathVisit chain)

/-- The root field of `flattenCfg`: no tag, an empty struct-field name, no
slice index, struct kind. -/
def rootData : PFieldData := ⟨[], [], none, false⟩

/-- Struct member `B` of the root (struct kind). -/
def bData : PFieldData := ⟨[], gs "B", none, false⟩

/-- Struct member `C` of `B`, of slice kind. -/
def cData : PFieldData := ⟨[], gs "C", none, true⟩

/-- Element 0 of the slice `C` (a struct element; its `st` is inherited
from `C` but its name is its bracketed index). -/
def elem0Data : PFieldData := ⟨[], gs "C", some 0, false⟩

/-- Struct member `D` of the element. -/
def dData : PFieldData := ⟨[], gs "D", none, false⟩

/-- C8 -- For a field `D` nested inside slice element 0 of a slice field
`C` that is a member of struct field `B` of the root record, `path()`
renders exactly `B.C[0].D`: ancestor names are dot-separated, a slice
element's name is its bracketed index, and no dot is inserted after a
slice or array field's name (so none appears between `C` and `[0]`). -/
theorem fieldPath_slice_format :
    fieldPath [rootData, bData, cData, elem0Data, dData] = gs "B.C[0].D" ∧
    (∀ (tn sn : GoStr) (i : Nat) (b : Bool),
        fieldName ⟨tn, sn, some i, b⟩ = '[' :: natToStr i ++ [']']) ∧
    (∀ (d : PFieldData) (rest : List PFieldData), d.sliceOrArray = true →
        pathVisit (d :: rest) = fieldName d ++ pathVisit rest) := by
  refine ⟨by decide, fun _ _ _ _ => rfl, ?_⟩
  intro d rest h
  simp [pathVisit, h]

/-- Witness for `fieldPath_slice_format`: the dot-suppression conjunct
instantiated at the slice field `C`. -/
theorem fieldPath_slice_format_witness :
    pathVisit [cData] = fieldName cData ++ pathVisit [] :=
  fieldPath_slice_format.2.2 cData [] rfl

/-- Witness for `fieldErrorsError_spec`: instantiated at the two-entry
mapping `{B -> berr, A -> aerr}`. -/
theorem fieldErrorsError_spec_witness :
    (∃ l : List (GoStr × GoStr),
        l.Perm [(gs "B", gs "berr"), (gs "A", gs "aerr")] ∧
        List.Sorted (fun p q : GoStr × GoStr => GoLeRel p.1 q.1) l ∧
        fieldErrorsError [(gs "B", gs "berr"), (gs "A", gs "aerr")] =
          joinSep (gs ", ") (l.map fun p => p.1 ++ gs ": " ++ p.2)) ∧
      fieldErrorsError [(gs "B", gs "berr"), (gs "A", gs "aerr")] = gs "A: aerr, B: berr" ∧
      fieldErrorsError [] = [] :=
  fieldErrorsError_spec [(gs "B", gs "berr"), (gs "A", gs "aerr")] (by decide)
